import Mathlib

/-!
Verification of the named-entity benchmark's core: the three-pass entity
matcher and the derived statistics (`process_and_analyze.py`), and the
extraction-side skip logic and context windows (`get_entities.py`).

Entity occurrences are the five-field records of the timeline files.
Positions are integers; scores are rationals (exact arithmetic standing in
for Python floats).  The external string-similarity and phonetic primitives
(`fuzz.ratio`, `DMetaphone`, `jarowinkler_similarity`) are out of scope per
the spec and are passed in as black-box functions.
-/

/-- One entity occurrence, as read from a timeline JSON record
(`text`, `position`, `entity_type`, `entity_key`, `sentence`). -/
structure Entity where
  text : String
  position : Int
  entity_type : String
  entity_key : String
  sentence : String
deriving DecidableEq

/-- A match record as built by `match_entities`:
`{'truth': ..., 'transcribed': ..., 'score': ...}`. -/
structure EMatch where
  truth : Entity
  transcribed : Entity
  score : ℚ
deriving DecidableEq

/-- The black-box similarity primitives `match_entities` calls:
`fuzz.ratio` (a similarity in [0,100]) and the double-metaphone encoder
(primary code, optional secondary code). -/
structure Prims where
  fuzz_ratio : String → String → ℚ
  dmetaphone : String → String × Option String

/-- The mutable state of `match_entities`: `matches`, `unmatched_truth`,
`unmatched_transcribed`. -/
structure MState where
  matched : List EMatch
  unmatched_truth : List Entity
  unmatched_transcribed : List Entity
deriving DecidableEq

/-- Python `str.lower()`: the character-wise lower-casing used on entity
texts. -/
def lower_str (s : String) : String :=
  String.mk (s.data.map Char.toLower)

/-- Pass 1 acceptance test (lines 39-42): case-insensitive text equality,
position within tolerance, sentence similarity above 80. -/
def pass1_accept (P : Prims) (tol : Int) (t r : Entity) : Bool :=
  (lower_str t.text == lower_str r.text)
    && decide (|t.position - r.position| ≤ tol)
    && decide ((80 : ℚ) < P.fuzz_ratio t.sentence r.sentence)

/-- The pass-1 inner loop (lines 38-50): scan `unmatched_truth` in order and
return the first entry accepted for the candidate `t`, if any. -/
def find_first_truth (P : Prims) (tol : Int) (t : Entity) : List Entity → Option Entity
  | [] => none
  | r :: rs => if pass1_accept P tol t r then some r else find_first_truth P tol t rs

/-- One pass-1 iteration for candidate `t`: accept the first matching
reference with score 100 and remove both from their pools. -/
def pass1_step (P : Prims) (tol : Int) (st : MState) (t : Entity) : MState :=
  match find_first_truth P tol t st.unmatched_truth with
  | none => st
  | some r =>
      { matched := st.matched ++ [⟨r, t, 100⟩]
        unmatched_truth := st.unmatched_truth.erase r
        unmatched_transcribed := st.unmatched_transcribed.erase t }

/-- Pass 1 (lines 36-50): iterate the candidates in their original
`transcribed` order over the initial state. -/
def pass1 (P : Prims) (tol : Int) (ground_truth transcribed : List Entity) : MState :=
  transcribed.foldl (pass1_step P tol) ⟨[], ground_truth, transcribed⟩

/-- Phonetic similarity (lines 63-66): the larger of the two slotwise
`fuzz.ratio` values over double-metaphone codes, with an absent secondary
code read as the empty string (`x or ''`). -/
def phonetic_similarity (P : Prims) (a b : String) : ℚ :=
  max (P.fuzz_ratio (P.dmetaphone a).1 (P.dmetaphone b).1)
      (P.fuzz_ratio ((P.dmetaphone a).2.getD "") ((P.dmetaphone b).2.getD ""))

/-- Pass 2 eligibility (lines 58-59): position within tolerance and the same
entity type. -/
def pass2_considered (tol : Int) (t r : Entity) : Bool :=
  decide (|t.position - r.position| ≤ tol) && (t.entity_type == r.entity_type)

/-- Pass 2 combined score (lines 60-69):
`0.5*sentence + 0.3*(100 - |Δposition|*10) + 0.15*text + 0.05*phonetic`,
the position component left unclamped. -/
def pass2_score (P : Prims) (t r : Entity) : ℚ :=
  0.5 * P.fuzz_ratio t.sentence r.sentence
    + 0.3 * ((100 - |t.position - r.position| * 10 : ℤ) : ℚ)
    + 0.15 * P.fuzz_ratio (lower_str t.text) (lower_str r.text)
    + 0.05 * phonetic_similarity P t.text r.text

/-- The best-candidate scan shared by passes 2 and 3 (lines 57-73 and
89-103): fold over the remaining references keeping `(best_match,
best_score)`, updating on a strictly larger score of an eligible entry. -/
def best_scan (considered : Entity → Bool) (score : Entity → ℚ) :
    List Entity → Option Entity × ℚ → Option Entity × ℚ
  | [], best => best
  | r :: rs, best =>
    if considered r then
      if best.2 < score r then best_scan considered score rs (some r, score r)
      else best_scan considered score rs best
    else best_scan considered score rs best

/-- One pass-2 iteration for candidate `t` (lines 53-82): scan for the best
eligible reference starting from `(None, 0)` and accept it when the score
exceeds 50. -/
def pass2_step (P : Prims) (tol : Int) (st : MState) (t : Entity) : MState :=
  let best := best_scan (pass2_considered tol t) (pass2_score P t) st.unmatched_truth (none, 0)
  match best.1 with
  | none => st
  | some r =>
      if 50 < best.2 then
        { matched := st.matched ++ [⟨r, t, best.2⟩]
          unmatched_truth := st.unmatched_truth.erase r
          unmatched_transcribed := st.unmatched_transcribed.erase t }
      else st

/-- Pass 2 (lines 52-82): iterate over a snapshot of the candidates still
unmatched after pass 1 (`unmatched_transcribed[:]`). -/
def pass2 (P : Prims) (tol : Int) (st : MState) : MState :=
  st.unmatched_transcribed.foldl (pass2_step P tol) st

/-- Pass 3 eligibility (line 90): same entity type, position unrestricted. -/
def pass3_considered (t r : Entity) : Bool :=
  t.entity_type == r.entity_type

/-- Pass 3 combined score (line 99):
`0.6*sentence + 0.3*text + 0.1*phonetic`, with no position term. -/
def pass3_score (P : Prims) (t r : Entity) : ℚ :=
  0.6 * P.fuzz_ratio t.sentence r.sentence
    + 0.3 * P.fuzz_ratio (lower_str t.text) (lower_str r.text)
    + 0.1 * phonetic_similarity P t.text r.text

/-- One pass-3 iteration for candidate `t` (lines 85-112): accept the best
same-type reference when its score exceeds 80. -/
def pass3_step (P : Prims) (st : MState) (t : Entity) : MState :=
  let best := best_scan (pass3_considered t) (pass3_score P t) st.unmatched_truth (none, 0)
  match best.1 with
  | none => st
  | some r =>
      if 80 < best.2 then
        { matched := st.matched ++ [⟨r, t, best.2⟩]
          unmatched_truth := st.unmatched_truth.erase r
          unmatched_transcribed := st.unmatched_transcribed.erase t }
      else st

/-- Pass 3 (lines 84-112): iterate over a snapshot of the candidates still
unmatched after pass 2. -/
def pass3 (P : Prims) (st : MState) : MState :=
  st.unmatched_transcribed.foldl (pass3_step P) st

/-- `match_entities` (lines 29-114): the three passes in order, returning
`(matches, unmatched_truth, unmatched_transcribed)`. -/
def match_entities (P : Prims) (ground_truth transcribed : List Entity) (tol : Int) : MState :=
  pass3 P (pass2 P tol (pass1 P tol ground_truth transcribed))

/-- `calculate_pner` (lines 122-129): mean Jaro-Winkler distance over the
position-wise pairs of the two text lists; 0 on an empty truth list. -/
def calculate_pner (jw : String → String → ℚ) (truth_entities transcribed_entities : List String) : ℚ :=
  if truth_entities = [] then 0
  else
    (((truth_entities.zip transcribed_entities).map fun p => 1 - jw p.1 p.2).sum)
      / truth_entities.length

/-- `calculate_pnwer` (lines 131-141): substitutions over the position-wise
pairs plus the length mismatch in each direction, divided by the truth
length; 0 on an empty truth list. -/
def calculate_pnwer (truth_entities transcribed_entities : List String) : ℚ :=
  if truth_entities = [] then 0
  else
    let substitutions := ((truth_entities.zip transcribed_entities).filter
      fun p => p.1 != p.2).length
    let deletions := max 0 ((truth_entities.length : ℤ) - transcribed_entities.length)
    let insertions := max 0 ((transcribed_entities.length : ℤ) - truth_entities.length)
    ((substitutions : ℚ) + (deletions : ℚ) + (insertions : ℚ)) / truth_entities.length

/-- The statistics record `generate_statistics` returns (lines 160-171). -/
structure Statistics where
  total_entities : ℕ
  total_matches : ℕ
  total_unmatched_truth : ℕ
  total_unmatched_transcribed : ℕ
  match_rate : ℚ
  unmatched_truth_rate : ℚ
  unmatched_transcribed_rate : ℚ
  average_match_score : ℚ
  pner : ℚ
  pnwer : ℚ
deriving DecidableEq

/-- `generate_statistics` (lines 143-171), with the Jaro-Winkler primitive
passed in. -/
def generate_statistics (jw : String → String → ℚ)
    (matched : List EMatch) (unmatched_truth unmatched_transcribed : List Entity) : Statistics :=
  let total_matches := matched.length
  let total_unmatched_truth := unmatched_truth.length
  let total_unmatched_transcribed := unmatched_transcribed.length
  let total_entities := total_matches + total_unmatched_truth + total_unmatched_transcribed
  let match_scores := matched.map EMatch.score
  let avg_match_score := if match_scores = [] then 0 else match_scores.sum / match_scores.length
  let truth_proper_nouns := matched.map fun m => m.truth.text
  let transcribed_proper_nouns := matched.map fun m => m.transcribed.text
  { total_entities := total_entities
    total_matches := total_matches
    total_unmatched_truth := total_unmatched_truth
    total_unmatched_transcribed := total_unmatched_transcribed
    match_rate := if 0 < total_entities then (total_matches : ℚ) / total_entities else 0
    unmatched_truth_rate :=
      if 0 < total_entities then (total_unmatched_truth : ℚ) / total_entities else 0
    unmatched_transcribed_rate :=
      if 0 < total_entities then (total_unmatched_transcribed : ℚ) / total_entities else 0
    average_match_score := avg_match_score
    pner := calculate_pner jw truth_proper_nouns transcribed_proper_nouns
    pnwer := calculate_pnwer truth_proper_nouns transcribed_proper_nouns }

/-- The accumulator loop behind `split_words`: walk the characters, growing
the current token in `acc` (reversed) and emitting it at whitespace. -/
def words_aux : List Char → List Char → List (List Char)
  | [], acc => if acc.isEmpty then [] else [acc.reverse]
  | c :: cs, acc =>
    if c.isWhitespace then
      if acc.isEmpty then words_aux cs [] else acc.reverse :: words_aux cs []
    else words_aux cs (c :: acc)

/-- `re.findall(r'\S+', s)`: the maximal whitespace-free tokens of `s`. -/
def split_words (s : String) : List String :=
  (words_aux s.data []).map String.mk

/-- `' '.join(l)`. -/
def join_with_spaces (l : List String) : String :=
  String.mk (List.intercalate [' '] (l.map String.data))

/-- The context-window computation of `extract_named_entities`
(`get_entities.py` lines 96-100): `words[max(0, esw-10) : min(len, esw+10)]`
joined by blanks, where `esw` counts the tokens of the text before
`start_pos`. -/
def context_window (text : String) (start_pos : ℕ) : String :=
  let words := split_words text
  let entity_start_word := (split_words (String.mk (text.data.take start_pos))).length
  let start_word := entity_start_word - 10
  let end_word := min words.length (entity_start_word + 10)
  join_with_spaces ((words.drop start_word).take (end_word - start_word))

/-- One entity record of the extraction response, with the fields
`extract_named_entities` reads; a missing field is `none`. -/
structure RawEntity where
  processed_text : Option String
  best_label : Option String
  text : Option String
  stt_idx : Option ℕ
  end_idx : Option ℕ
deriving DecidableEq

/-- The skip test of `extract_named_entities` (lines 74-78): the canonical
key (`processed_text`, defaulted to the empty string) or the type label
(`best_label`, likewise) is empty. -/
def skips_entity (e : RawEntity) : Bool :=
  (e.processed_text.getD "" == "") || (e.best_label.getD "" == "")

/-- One `entity_dict` value: `{text, type, positions, sentences}`. -/
structure EntityData where
  text : String
  type : String
  positions : List ℤ
  sentences : List String
deriving DecidableEq

/-- Append one occurrence (position and context) to the named entry of the
insertion-ordered entity mapping. -/
def append_occurrence (key : String) (pos : ℤ) (ctx : String) :
    List (String × EntityData) → List (String × EntityData)
  | [] => []
  | (k, d) :: rest =>
    if k = key then
      (k, { d with positions := d.positions ++ [pos], sentences := d.sentences ++ [ctx] }) :: rest
    else (k, d) :: append_occurrence key pos ctx rest

/-- One iteration of the response-entity loop of `extract_named_entities`
(lines 73-103) over the insertion-ordered `entity_dict`: skip when key or
label is missing, otherwise create the entry if absent and, when the span
offsets are present, record the normalized position
(`int(start/len*100)`, exact arithmetic) and the context window. -/
def extract_step (text : String) (dict : List (String × EntityData)) (e : RawEntity) :
    List (String × EntityData) :=
  let entity_key := e.processed_text.getD ""
  let entity_type := e.best_label.getD ""
  if skips_entity e then dict
  else
    let dict1 :=
      if (dict.lookup entity_key).isNone then
        dict ++ [(entity_key, ⟨e.text.getD "", entity_type, [], []⟩)]
      else dict
    match e.stt_idx, e.end_idx with
    | some start_pos, some _ =>
        let normalized_pos : ℤ := (start_pos * 100) / text.length
        append_occurrence entity_key normalized_pos (context_window text start_pos) dict1
    | _, _ => dict1

/-- The whole response loop: fold `extract_step` over the response's
entities in order, starting from the empty mapping. -/
def extract_entities (text : String) (entities : List RawEntity) : List (String × EntityData) :=
  entities.foldl (extract_step text) []

/-- Modelled from the spec: the context window as §3 of the spec words it
for a mention of `mention_words` whitespace-separated words — up to 10
words strictly before the mention, the mention itself, and up to 10 words
strictly after the mention, truncated only at the transcript's ends. -/
def context_window_spec (text : String) (start_pos mention_words : ℕ) : String :=
  let words := split_words text
  let entity_start_word := (split_words (String.mk (text.data.take start_pos))).length
  let before := (words.take entity_start_word).drop (entity_start_word - 10)
  let mention := (words.drop entity_start_word).take mention_words
  let after := (words.drop (entity_start_word + mention_words)).take 10
  join_with_spaces (before ++ mention ++ after)

/-- The reference occurrences a state accounts for: the truth sides of its
matches together with its unmatched references, as a multiset. -/
def truth_multiset (st : MState) : Multiset Entity :=
  ↑(st.matched.map EMatch.truth) + ↑st.unmatched_truth

/-- The candidate occurrences a state accounts for: the transcribed sides of
its matches together with its unmatched candidates, as a multiset. -/
def trans_multiset (st : MState) : Multiset Entity :=
  ↑(st.matched.map EMatch.transcribed) + ↑st.unmatched_transcribed

/-- The shape every per-candidate iteration of the three passes has: leave
the state alone, or append one match pairing the candidate with a reference
from the unmatched pool and erase both from their pools. -/
def step_consume (step : MState → Entity → MState) : Prop :=
  ∀ st t, step st t = st ∨
    ∃ r s, r ∈ st.unmatched_truth ∧
      step st t = ⟨st.matched ++ [⟨r, t, s⟩], st.unmatched_truth.erase r,
        st.unmatched_transcribed.erase t⟩

/-- A concrete primitive set for closed instances: similarity 100 on equal
strings and 0 otherwise, and an identity phonetic encoder with no secondary
code. -/
def sample_prims : Prims :=
  ⟨fun a b => if a = b then 100 else 0, fun s => (s, none)⟩

/-- A concrete occurrence for closed instances. -/
def sample_entity : Entity :=
  ⟨"Acme", 10, "ORG", "k1", "we met Acme today"⟩

theorem find_first_truth_eq_none {P : Prims} {tol : Int} {t : Entity} :
    ∀ {l : List Entity}, find_first_truth P tol t l = none ↔
      ∀ r ∈ l, pass1_accept P tol t r = false
  | [] => by simp [find_first_truth]
  | r :: rs => by
    by_cases h : pass1_accept P tol t r
    · simp [find_first_truth, h]
    · simp only [find_first_truth, if_neg h, find_first_truth_eq_none (l := rs),
        List.mem_cons, Bool.not_eq_true] at h ⊢
      constructor
      · rintro hall x (rfl | hx)
        · exact h
        · exact hall x hx
      · intro hall x hx
        exact hall x (Or.inr hx)

theorem find_first_truth_eq_some {P : Prims} {tol : Int} {t : Entity} :
    ∀ {l : List Entity} {r : Entity}, find_first_truth P tol t l = some r →
      pass1_accept P tol t r = true ∧
      ∃ l₁ l₂, l = l₁ ++ r :: l₂ ∧ ∀ x ∈ l₁, pass1_accept P tol t x = false
  | [], r => by simp [find_first_truth]
  | a :: rs, r => by
    by_cases h : pass1_accept P tol t a
    · simp only [find_first_truth, if_pos h, Option.some.injEq]
      rintro rfl
      exact ⟨h, [], rs, rfl, by simp⟩
    · simp only [find_first_truth, if_neg h]
      intro hfind
      obtain ⟨hacc, l₁, l₂, rfl, hfail⟩ := find_first_truth_eq_some hfind
      refine ⟨hacc, a :: l₁, l₂, rfl, ?_⟩
      intro x hx
      rcases List.mem_cons.mp hx with rfl | hx
      · exact Bool.not_eq_true _ ▸ h
      · exact hfail x hx

theorem best_scan_spec (c : Entity → Bool) (f : Entity → ℚ) :
    ∀ (l : List Entity) (b : Option Entity × ℚ),
      (best_scan c f l b = b ∧ ∀ r ∈ l, c r = true → f r ≤ b.2) ∨
      (∃ r ∈ l, c r = true ∧ best_scan c f l b = (some r, f r) ∧ b.2 < f r ∧
        ∀ x ∈ l, c x = true → f x ≤ f r)
  | [], b => Or.inl ⟨rfl, by simp⟩
  | a :: rs, b => by
    by_cases hc : c a
    · by_cases hlt : b.2 < f a
      · rcases best_scan_spec c f rs (some a, f a) with ⟨heq, hall⟩ | ⟨r, hr, hcr, heq, hgt, hall⟩
        · refine Or.inr ⟨a, by simp, hc, ?_, hlt, ?_⟩
          · simpa [best_scan, hc, hlt] using heq
          · intro x hx hcx
            rcases List.mem_cons.mp hx with rfl | hx
            · exact le_refl _
            · exact hall x hx hcx
        · refine Or.inr ⟨r, by simp [hr], hcr, ?_, lt_trans hlt hgt, ?_⟩
          · simpa [best_scan, hc, hlt] using heq
          · intro x hx hcx
            rcases List.mem_cons.mp hx with rfl | hx
            · exact le_of_lt hgt
            · exact hall x hx hcx
      · rcases best_scan_spec c f rs b with ⟨heq, hall⟩ | ⟨r, hr, hcr, heq, hgt, hall⟩
        · refine Or.inl ⟨by simpa [best_scan, hc, hlt] using heq, ?_⟩
          intro x hx hcx
          rcases List.mem_cons.mp hx with rfl | hx
          · exact not_lt.mp hlt
          · exact hall x hx hcx
        · refine Or.inr ⟨r, by simp [hr], hcr, by simpa [best_scan, hc, hlt] using heq, hgt, ?_⟩
          intro x hx hcx
          rcases List.mem_cons.mp hx with rfl | hx
          · exact le_trans (not_lt.mp hlt) (le_of_lt hgt)
          · exact hall x hx hcx
    · rcases best_scan_spec c f rs b with ⟨heq, hall⟩ | ⟨r, hr, hcr, heq, hgt, hall⟩
      · refine Or.inl ⟨by simpa [best_scan, hc] using heq, ?_⟩
        intro x hx hcx
        rcases List.mem_cons.mp hx with rfl | hx
        · exact absurd hcx (by simp [hc])
        · exact hall x hx hcx
      · refine Or.inr ⟨r, by simp [hr], hcr, by simpa [best_scan, hc] using heq, hgt, ?_⟩
        intro x hx hcx
        rcases List.mem_cons.mp hx with rfl | hx
        · exact absurd hcx (by simp [hc])
        · exact hall x hx hcx

theorem find_first_truth_mem {P : Prims} {tol : Int} {t : Entity} :
    ∀ {l : List Entity} {r : Entity}, find_first_truth P tol t l = some r → r ∈ l := by
  intro l r h
  obtain ⟨-, l₁, l₂, rfl, -⟩ := find_first_truth_eq_some h
  simp

theorem pass1_step_consume (P : Prims) (tol : Int) : step_consume (pass1_step P tol) := by
  intro st t
  rcases h : find_first_truth P tol t st.unmatched_truth with - | r
  · exact Or.inl (by simp [pass1_step, h])
  · exact Or.inr ⟨r, 100, find_first_truth_mem h, by simp [pass1_step, h]⟩

theorem best_scan_init_some {c : Entity → Bool} {f : Entity → ℚ} {l : List Entity}
    {r : Entity} {q : ℚ} (h : best_scan c f l (none, 0) = (some r, q)) :
    r ∈ l ∧ c r = true ∧ q = f r ∧ 0 < f r ∧ ∀ x ∈ l, c x = true → f x ≤ f r := by
  rcases best_scan_spec c f l (none, 0) with ⟨heq, -⟩ | ⟨a, ha, hca, heq, hgt, hall⟩
  · rw [heq] at h
    exact absurd (congrArg Prod.fst h) (by simp)
  · rw [heq] at h
    obtain ⟨h1, h2⟩ := Prod.mk.injEq .. ▸ h
    cases h1
    exact ⟨ha, hca, h2.symm, hgt, hall⟩

theorem pass2_step_consume (P : Prims) (tol : Int) : step_consume (pass2_step P tol) := by
  intro st t
  rcases hb : best_scan (pass2_considered tol t) (pass2_score P t) st.unmatched_truth (none, 0)
    with ⟨- | r, q⟩
  · exact Or.inl (by simp [pass2_step, hb])
  · obtain ⟨hmem, -, rfl, -, -⟩ := best_scan_init_some hb
    by_cases h50 : (50 : ℚ) < pass2_score P t r
    · exact Or.inr ⟨r, pass2_score P t r, hmem, by simp [pass2_step, hb, h50]⟩
    · exact Or.inl (by simp [pass2_step, hb, h50])

theorem pass3_step_consume (P : Prims) : step_consume (pass3_step P) := by
  intro st t
  rcases hb : best_scan (pass3_considered t) (pass3_score P t) st.unmatched_truth (none, 0)
    with ⟨- | r, q⟩
  · exact Or.inl (by simp [pass3_step, hb])
  · obtain ⟨hmem, -, rfl, -, -⟩ := best_scan_init_some hb
    by_cases h80 : (80 : ℚ) < pass3_score P t r
    · exact Or.inr ⟨r, pass3_score P t r, hmem, by simp [pass3_step, hb, h80]⟩
    · exact Or.inl (by simp [pass3_step, hb, h80])

theorem multiset_cons_le_erase {α : Type} [DecidableEq α] {a : α} {s t : Multiset α}
    (h : a ::ₘ s ≤ t) : s ≤ t.erase a := by
  rw [Multiset.le_iff_count] at h ⊢
  intro x
  by_cases hx : x = a
  · subst hx
    have := h x
    rw [Multiset.count_cons_self] at this
    rw [Multiset.count_erase_self]
    omega
  · have := h x
    rw [Multiset.count_cons_of_ne hx] at this
    rw [Multiset.count_erase_of_ne hx]
    exact this

theorem fold_consume_multisets {step : MState → Entity → MState} (hstep : step_consume step) :
    ∀ (l : List Entity) (st : MState), (↑l : Multiset Entity) ≤ ↑st.unmatched_transcribed →
      truth_multiset (l.foldl step st) = truth_multiset st ∧
      trans_multiset (l.foldl step st) = trans_multiset st
  | [], st, _ => ⟨rfl, rfl⟩
  | t :: rest, st, hle => by
    have htmem : t ∈ st.unmatched_transcribed := by
      rw [← Multiset.mem_coe]
      exact Multiset.mem_of_le hle (by simp)
    have hrest : (↑rest : Multiset Entity) ≤ ↑st.unmatched_transcribed := by
      refine le_trans ?_ hle
      rw [← Multiset.cons_coe]
      exact Multiset.le_cons_self _ _
    rw [List.foldl_cons]
    rcases hstep st t with hsame | ⟨r, s, hr, heq⟩
    · rw [hsame]
      exact fold_consume_multisets hstep rest st hrest
    · have hrest2 : (↑rest : Multiset Entity) ≤ ↑(step st t).unmatched_transcribed := by
        rw [heq]
        show (↑rest : Multiset Entity) ≤ ↑(st.unmatched_transcribed.erase t)
        rw [← Multiset.coe_erase]
        apply multiset_cons_le_erase
        rwa [Multiset.cons_coe]
      obtain ⟨ih1, ih2⟩ := fold_consume_multisets hstep rest (step st t) hrest2
      rw [ih1, ih2, heq]
      constructor
      · simp only [truth_multiset, List.map_append, List.map_cons, List.map_nil,
          ← Multiset.coe_add, ← Multiset.coe_erase, Multiset.coe_singleton]
        rw [add_assoc, Multiset.singleton_add, Multiset.cons_erase (Multiset.mem_coe.mpr hr)]
      · simp only [trans_multiset, List.map_append, List.map_cons, List.map_nil,
          ← Multiset.coe_add, ← Multiset.coe_erase, Multiset.coe_singleton]
        rw [add_assoc, Multiset.singleton_add, Multiset.cons_erase (Multiset.mem_coe.mpr htmem)]

/-- C1: `match_entities` partitions its inputs: the truth sides of the
matches together with `unmatched_truth` are the reference list as a
multiset, and the transcribed sides together with `unmatched_transcribed`
are the candidate list as a multiset — so every occurrence lands in exactly
one bucket and none is paired twice. -/
theorem match_entities_partition (P : Prims) (ground_truth transcribed : List Entity) (tol : Int) :
    ↑((match_entities P ground_truth transcribed tol).matched.map EMatch.truth)
        + ↑(match_entities P ground_truth transcribed tol).unmatched_truth
      = (↑ground_truth : Multiset Entity) ∧
    ↑((match_entities P ground_truth transcribed tol).matched.map EMatch.transcribed)
        + ↑(match_entities P ground_truth transcribed tol).unmatched_transcribed
      = (↑transcribed : Multiset Entity) := by
  have h1 := fold_consume_multisets (pass1_step_consume P tol) transcribed
    ⟨[], ground_truth, transcribed⟩ (le_refl _)
  have h2 := fold_consume_multisets (pass2_step_consume P tol)
    (pass1 P tol ground_truth transcribed).unmatched_transcribed
    (pass1 P tol ground_truth transcribed) (le_refl _)
  have h3 := fold_consume_multisets (pass3_step_consume P)
    (pass2 P tol (pass1 P tol ground_truth transcribed)).unmatched_transcribed
    (pass2 P tol (pass1 P tol ground_truth transcribed)) (le_refl _)
  have key1 : truth_multiset (match_entities P ground_truth transcribed tol)
      = truth_multiset ⟨[], ground_truth, transcribed⟩ := by
    calc truth_multiset (match_entities P ground_truth transcribed tol)
        = truth_multiset (pass2 P tol (pass1 P tol ground_truth transcribed)) := h3.1
      _ = truth_multiset (pass1 P tol ground_truth transcribed) := h2.1
      _ = truth_multiset ⟨[], ground_truth, transcribed⟩ := h1.1
  have key2 : trans_multiset (match_entities P ground_truth transcribed tol)
      = trans_multiset ⟨[], ground_truth, transcribed⟩ := by
    calc trans_multiset (match_entities P ground_truth transcribed tol)
        = trans_multiset (pass2 P tol (pass1 P tol ground_truth transcribed)) := h3.2
      _ = trans_multiset (pass1 P tol ground_truth transcribed) := h2.2
      _ = trans_multiset ⟨[], ground_truth, transcribed⟩ := h1.2
  constructor
  · have := key1
    simp only [truth_multiset] at this
    simpa using this
  · have := key2
    simp only [trans_multiset] at this
    simpa using this

theorem foldl_fixed_state {α β : Type} (f : β → α → β) (b : β) (h : ∀ a, f b a = b) :
    ∀ l : List α, l.foldl f b = b
  | [] => rfl
  | a :: l => by rw [List.foldl_cons, h a]; exact foldl_fixed_state f b h l

theorem match_entities_empty_truth (P : Prims) (transcribed : List Entity) (tol : Int) :
    match_entities P [] transcribed tol = ⟨[], [], transcribed⟩ := by
  have hp1 : pass1 P tol [] transcribed = ⟨[], [], transcribed⟩ :=
    foldl_fixed_state _ _ (fun t => by simp [pass1_step, find_first_truth]) transcribed
  have hp2 : pass2 P tol ⟨[], [], transcribed⟩ = ⟨[], [], transcribed⟩ :=
    foldl_fixed_state _ _ (fun t => by simp [pass2_step, best_scan]) transcribed
  have hp3 : pass3 P ⟨[], [], transcribed⟩ = ⟨[], [], transcribed⟩ :=
    foldl_fixed_state _ _ (fun t => by simp [pass3_step, best_scan]) transcribed
  rw [match_entities, hp1, hp2, hp3]

/-- C2: pass 1 walks the candidates in their original order; for each
candidate it accepts the first still-unmatched reference (in reference
order) with case-insensitively equal text, position within tolerance and
sentence similarity above 80, records it with score 100, removes both
occurrences, and stops scanning; with no such reference the state is
unchanged. -/
theorem pass1_first_fit (P : Prims) (tol : Int) (st : MState) (t : Entity)
    (ground_truth transcribed : List Entity) :
    pass1 P tol ground_truth transcribed
      = transcribed.foldl (pass1_step P tol) ⟨[], ground_truth, transcribed⟩ ∧
    (∀ r : Entity, pass1_accept P tol t r = true ↔
      (lower_str t.text = lower_str r.text ∧ |t.position - r.position| ≤ tol ∧
        80 < P.fuzz_ratio t.sentence r.sentence)) ∧
    (((∀ r ∈ st.unmatched_truth, pass1_accept P tol t r = false) ∧
        pass1_step P tol st t = st) ∨
      (∃ l₁ r l₂, st.unmatched_truth = l₁ ++ r :: l₂ ∧ pass1_accept P tol t r = true ∧
        (∀ x ∈ l₁, pass1_accept P tol t x = false) ∧
        pass1_step P tol st t = ⟨st.matched ++ [⟨r, t, 100⟩], l₁ ++ l₂,
          st.unmatched_transcribed.erase t⟩)) := by
  refine ⟨rfl, fun r => by simp [pass1_accept, and_assoc], ?_⟩
  rcases h : find_first_truth P tol t st.unmatched_truth with - | r
  · exact Or.inl ⟨find_first_truth_eq_none.mp h, by simp [pass1_step, h]⟩
  · obtain ⟨hacc, l₁, l₂, hdec, hfail⟩ := find_first_truth_eq_some h
    refine Or.inr ⟨l₁, r, l₂, hdec, hacc, hfail, ?_⟩
    have hnot : r ∉ l₁ := fun hmem => by simp [hfail r hmem] at hacc
    have herase : st.unmatched_truth.erase r = l₁ ++ l₂ := by
      rw [hdec, List.erase_append_right _ hnot, List.erase_cons_head]
    simp [pass1_step, h, herase]

/-- C3: pass 2 walks the candidates remaining after pass 1 in order; only
still-unmatched references with the same entity type and position within
tolerance are eligible; each is scored
`0.5*sentence + 0.3*(100 - |Δposition|*10) + 0.15*text + 0.05*phonetic`
(phonetic = the larger slotwise double-metaphone code similarity, absent
codes as empty strings); the top-scoring reference is accepted with that
score exactly when the score exceeds 50, consuming one reference. -/
theorem pass2_weighted (P : Prims) (tol : Int) (st : MState) (t : Entity) :
    pass2 P tol st = st.unmatched_transcribed.foldl (pass2_step P tol) st ∧
    (∀ r : Entity, pass2_considered tol t r = true ↔
      (|t.position - r.position| ≤ tol ∧ t.entity_type = r.entity_type)) ∧
    (∀ r : Entity, pass2_score P t r =
      0.5 * P.fuzz_ratio t.sentence r.sentence
        + 0.3 * ((100 - |t.position - r.position| * 10 : ℤ) : ℚ)
        + 0.15 * P.fuzz_ratio (lower_str t.text) (lower_str r.text)
        + 0.05 * max (P.fuzz_ratio (P.dmetaphone t.text).1 (P.dmetaphone r.text).1)
            (P.fuzz_ratio ((P.dmetaphone t.text).2.getD "") ((P.dmetaphone r.text).2.getD ""))) ∧
    (((∀ r ∈ st.unmatched_truth, pass2_considered tol t r = true → pass2_score P t r ≤ 50) ∧
        pass2_step P tol st t = st) ∨
      (∃ r ∈ st.unmatched_truth, pass2_considered tol t r = true ∧ 50 < pass2_score P t r ∧
        (∀ x ∈ st.unmatched_truth, pass2_considered tol t x = true →
          pass2_score P t x ≤ pass2_score P t r) ∧
        pass2_step P tol st t = ⟨st.matched ++ [⟨r, t, pass2_score P t r⟩],
          st.unmatched_truth.erase r, st.unmatched_transcribed.erase t⟩)) := by
  refine ⟨rfl, fun r => by simp [pass2_considered], fun r => rfl, ?_⟩
  rcases best_scan_spec (pass2_considered tol t) (pass2_score P t) st.unmatched_truth (none, 0)
    with ⟨heq, hall⟩ | ⟨r, hr, hcr, heq, hgt, hall⟩
  · refine Or.inl ⟨fun r h hc => le_trans (hall r h hc) (by norm_num), ?_⟩
    simp [pass2_step, heq]
  · by_cases h50 : (50 : ℚ) < pass2_score P t r
    · exact Or.inr ⟨r, hr, hcr, h50, hall, by simp [pass2_step, heq, h50]⟩
    · exact Or.inl ⟨fun x hx hcx => le_trans (hall x hx hcx) (not_lt.mp h50),
        by simp [pass2_step, heq, h50]⟩

/-- C4: pass 3 walks the candidates remaining after pass 2 in order; every
still-unmatched reference of the same entity type is eligible regardless of
position; each is scored `0.6*sentence + 0.3*text + 0.1*phonetic` with no
position term, and the top-scoring reference is accepted exactly when that
score exceeds 80. -/
theorem pass3_relaxed (P : Prims) (st : MState) (t : Entity) :
    pass3 P st = st.unmatched_transcribed.foldl (pass3_step P) st ∧
    (∀ r : Entity, pass3_considered t r = true ↔ t.entity_type = r.entity_type) ∧
    (∀ r : Entity, pass3_score P t r =
      0.6 * P.fuzz_ratio t.sentence r.sentence
        + 0.3 * P.fuzz_ratio (lower_str t.text) (lower_str r.text)
        + 0.1 * max (P.fuzz_ratio (P.dmetaphone t.text).1 (P.dmetaphone r.text).1)
            (P.fuzz_ratio ((P.dmetaphone t.text).2.getD "") ((P.dmetaphone r.text).2.getD ""))) ∧
    (((∀ r ∈ st.unmatched_truth, pass3_considered t r = true → pass3_score P t r ≤ 80) ∧
        pass3_step P st t = st) ∨
      (∃ r ∈ st.unmatched_truth, pass3_considered t r = true ∧ 80 < pass3_score P t r ∧
        (∀ x ∈ st.unmatched_truth, pass3_considered t x = true →
          pass3_score P t x ≤ pass3_score P t r) ∧
        pass3_step P st t = ⟨st.matched ++ [⟨r, t, pass3_score P t r⟩],
          st.unmatched_truth.erase r, st.unmatched_transcribed.erase t⟩)) := by
  refine ⟨rfl, fun r => by simp [pass3_considered], fun r => rfl, ?_⟩
  rcases best_scan_spec (pass3_considered t) (pass3_score P t) st.unmatched_truth (none, 0)
    with ⟨heq, hall⟩ | ⟨r, hr, hcr, heq, hgt, hall⟩
  · refine Or.inl ⟨fun r h hc => le_trans (hall r h hc) (by norm_num), ?_⟩
    simp [pass3_step, heq]
  · by_cases h80 : (80 : ℚ) < pass3_score P t r
    · exact Or.inr ⟨r, hr, hcr, h80, hall, by simp [pass3_step, heq, h80]⟩
    · exact Or.inl ⟨fun x hx hcx => le_trans (hall x hx hcx) (not_lt.mp h80),
        by simp [pass3_step, heq, h80]⟩

theorem phonetic_similarity_bounds (P : Prims)
    (hF : ∀ a b, 0 ≤ P.fuzz_ratio a b ∧ P.fuzz_ratio a b ≤ 100) (a b : String) :
    0 ≤ phonetic_similarity P a b ∧ phonetic_similarity P a b ≤ 100 := by
  unfold phonetic_similarity
  constructor
  · exact le_max_of_le_left (hF _ _).1
  · exact max_le (hF _ _).2 (hF _ _).2

theorem pass2_score_le_100 (P : Prims) (t r : Entity)
    (hF : ∀ a b, 0 ≤ P.fuzz_ratio a b ∧ P.fuzz_ratio a b ≤ 100) :
    pass2_score P t r ≤ 100 := by
  have hs := hF t.sentence r.sentence
  have ht := hF (lower_str t.text) (lower_str r.text)
  have hp := phonetic_similarity_bounds P hF t.text r.text
  have habs : (0 : ℤ) ≤ |t.position - r.position| := abs_nonneg _
  have hpos : ((100 - |t.position - r.position| * 10 : ℤ) : ℚ) ≤ 100 := by
    have h1 : (100 - |t.position - r.position| * 10 : ℤ) ≤ 100 := by
      have := mul_nonneg habs (by norm_num : (0 : ℤ) ≤ 10)
      linarith
    calc ((100 - |t.position - r.position| * 10 : ℤ) : ℚ)
        ≤ ((100 : ℤ) : ℚ) := Int.cast_le.mpr h1
      _ = 100 := by norm_num
  unfold pass2_score
  linarith [hs.2, ht.2, hp.2, hpos]

theorem pass3_score_le_100 (P : Prims) (t r : Entity)
    (hF : ∀ a b, 0 ≤ P.fuzz_ratio a b ∧ P.fuzz_ratio a b ≤ 100) :
    pass3_score P t r ≤ 100 := by
  have hs := hF t.sentence r.sentence
  have ht := hF (lower_str t.text) (lower_str r.text)
  have hp := phonetic_similarity_bounds P hF t.text r.text
  unfold pass3_score
  linarith [hs.2, ht.2, hp.2]

theorem fold_matched_scores (Q : ℚ → Prop) {step : MState → Entity → MState}
    (hstep : ∀ st t m, m ∈ (step st t).matched → m ∈ st.matched ∨ Q m.score) :
    ∀ (l : List Entity) (st : MState) (m : EMatch),
      m ∈ (l.foldl step st).matched → m ∈ st.matched ∨ Q m.score
  | [], _, _, h => Or.inl h
  | t :: rest, st, m, h => by
    rcases fold_matched_scores Q hstep rest (step st t) m h with h1 | h2
    · exact hstep st t m h1
    · exact Or.inr h2

theorem pass1_step_scores (P : Prims) (tol : Int) (st : MState) (t : Entity) (m : EMatch)
    (h : m ∈ (pass1_step P tol st t).matched) :
    m ∈ st.matched ∨ m.score = 100 ∨ (50 < m.score ∧ m.score ≤ 100) := by
  rcases hf : find_first_truth P tol t st.unmatched_truth with - | r
  · rw [pass1_step, hf] at h
    exact Or.inl h
  · rw [pass1_step, hf] at h
    rcases List.mem_append.mp h with h1 | h2
    · exact Or.inl h1
    · obtain rfl : m = ⟨r, t, 100⟩ := by simpa using h2
      exact Or.inr (Or.inl rfl)

theorem pass2_step_scores (P : Prims) (tol : Int) (st : MState) (t : Entity) (m : EMatch)
    (hF : ∀ a b, 0 ≤ P.fuzz_ratio a b ∧ P.fuzz_ratio a b ≤ 100)
    (h : m ∈ (pass2_step P tol st t).matched) :
    m ∈ st.matched ∨ m.score = 100 ∨ (50 < m.score ∧ m.score ≤ 100) := by
  rcases hb : best_scan (pass2_considered tol t) (pass2_score P t) st.unmatched_truth (none, 0)
    with ⟨- | r, q⟩
  · rw [pass2_step] at h
    simp only [hb] at h
    exact Or.inl h
  · obtain ⟨-, -, rfl, -, -⟩ := best_scan_init_some hb
    by_cases h50 : (50 : ℚ) < pass2_score P t r
    · rw [pass2_step] at h
      simp only [hb, if_pos h50] at h
      rcases List.mem_append.mp h with h1 | h2
      · exact Or.inl h1
      · obtain rfl : m = ⟨r, t, pass2_score P t r⟩ := by simpa using h2
        exact Or.inr (Or.inr ⟨h50, pass2_score_le_100 P t r hF⟩)
    · rw [pass2_step] at h
      simp only [hb, if_neg h50] at h
      exact Or.inl h

theorem pass3_step_scores (P : Prims) (st : MState) (t : Entity) (m : EMatch)
    (hF : ∀ a b, 0 ≤ P.fuzz_ratio a b ∧ P.fuzz_ratio a b ≤ 100)
    (h : m ∈ (pass3_step P st t).matched) :
    m ∈ st.matched ∨ m.score = 100 ∨ (50 < m.score ∧ m.score ≤ 100) := by
  rcases hb : best_scan (pass3_considered t) (pass3_score P t) st.unmatched_truth (none, 0)
    with ⟨- | r, q⟩
  · rw [pass3_step] at h
    simp only [hb] at h
    exact Or.inl h
  · obtain ⟨-, -, rfl, -, -⟩ := best_scan_init_some hb
    by_cases h80 : (80 : ℚ) < pass3_score P t r
    · rw [pass3_step] at h
      simp only [hb, if_pos h80] at h
      rcases List.mem_append.mp h with h1 | h2
      · exact Or.inl h1
      · obtain rfl : m = ⟨r, t, pass3_score P t r⟩ := by simpa using h2
        refine Or.inr (Or.inr ⟨?_, pass3_score_le_100 P t r hF⟩)
        calc (50 : ℚ) < 80 := by norm_num
          _ < pass3_score P t r := h80
    · rw [pass3_step] at h
      simp only [hb, if_neg h80] at h
      exact Or.inl h

/-- C5: under primitives valued in [0,100], every match `match_entities`
produces has a score in [0,100]; pass-1 matches score exactly 100 and every
weighted-pass acceptance scores above 50 and at most 100, the unclamped
position component notwithstanding. -/
theorem match_scores_in_range (P : Prims) (ground_truth transcribed : List Entity) (tol : Int)
    (m : EMatch)
    (hF : ∀ a b, 0 ≤ P.fuzz_ratio a b ∧ P.fuzz_ratio a b ≤ 100)
    (hm : m ∈ (match_entities P ground_truth transcribed tol).matched) :
    (0 ≤ m.score ∧ m.score ≤ 100) ∧
      (m.score = 100 ∨ (50 < m.score ∧ m.score ≤ 100)) := by
  have h3 := fold_matched_scores (fun s => s = 100 ∨ (50 < s ∧ s ≤ 100))
    (fun st t m => pass3_step_scores P st t m hF)
    (pass2 P tol (pass1 P tol ground_truth transcribed)).unmatched_transcribed
    (pass2 P tol (pass1 P tol ground_truth transcribed)) m hm
  have hq : m.score = 100 ∨ (50 < m.score ∧ m.score ≤ 100) := by
    rcases h3 with h3 | hq
    · have h2 := fold_matched_scores (fun s => s = 100 ∨ (50 < s ∧ s ≤ 100))
        (fun st t m => pass2_step_scores P tol st t m hF)
        (pass1 P tol ground_truth transcribed).unmatched_transcribed
        (pass1 P tol ground_truth transcribed) m h3
      rcases h2 with h2 | hq
      · have h1 := fold_matched_scores (fun s => s = 100 ∨ (50 < s ∧ s ≤ 100))
          (pass1_step_scores P tol) transcribed
          ⟨[], ground_truth, transcribed⟩ m h2
        rcases h1 with h1 | hq
        · exact absurd h1 (List.not_mem_nil m)
        · exact hq
      · exact hq
    · exact hq
  refine ⟨?_, hq⟩
  rcases hq with hq | hq
  · rw [hq]; norm_num
  · exact ⟨by linarith [hq.1], hq.2⟩

theorem match_scores_in_range_witness :
    (0 ≤ (EMatch.mk sample_entity sample_entity 100).score
      ∧ (EMatch.mk sample_entity sample_entity 100).score ≤ 100)
    ∧ ((EMatch.mk sample_entity sample_entity 100).score = 100
      ∨ (50 < (EMatch.mk sample_entity sample_entity 100).score
        ∧ (EMatch.mk sample_entity sample_entity 100).score ≤ 100)) :=
  match_scores_in_range sample_prims [sample_entity] [sample_entity] 10
    ⟨sample_entity, sample_entity, 100⟩
    (fun a b => by
      simp only [sample_prims]
      split <;> norm_num)
    (by decide)

/-- C6: `calculate_pner` over a match list's paired texts is the average of
`1 - jaro_winkler(ref_text, cand_text)` over the matches in order, 0 with
no matches; with an empty reference occurrence list it is 0 whatever the
candidate list. -/
theorem calculate_pner_spec (jw : String → String → ℚ) (ms : List EMatch)
    (P : Prims) (transcribed : List Entity) (tol : Int) :
    (calculate_pner jw (ms.map fun m => m.truth.text) (ms.map fun m => m.transcribed.text)
      = if ms = [] then 0
        else (ms.map fun m => 1 - jw m.truth.text m.transcribed.text).sum / ms.length) ∧
    calculate_pner jw
      ((match_entities P [] transcribed tol).matched.map fun m => m.truth.text)
      ((match_entities P [] transcribed tol).matched.map fun m => m.transcribed.text) = 0 := by
  constructor
  · rw [calculate_pner]
    by_cases h : ms = []
    · subst h
      simp
    · rw [if_neg (by simpa using h), if_neg h, List.zip_map', List.map_map,
        List.length_map]
      rfl
  · rw [match_entities_empty_truth]
    simp [calculate_pner]

theorem int_max_sub_add_max_sub (a b : ℤ) : max 0 (a - b) + max 0 (b - a) = |a - b| := by
  rcases le_total a b with h | h
  · rw [max_eq_left (by linarith), max_eq_right (by linarith), abs_of_nonpos (by linarith)]
    ring
  · rw [max_eq_right (by linarith), max_eq_left (by linarith), abs_of_nonneg (by linarith)]
    ring

/-- C7: `calculate_pnwer` is (position-wise substitutions + |length
difference|) / reference length, 0 on an empty reference list; in the
`generate_statistics` usage the two lists have one entry per match, so the
length-mismatch term vanishes and it is a pure substitution rate. -/
theorem calculate_pnwer_spec (truth_entities transcribed_entities : List String)
    (ms : List EMatch) :
    (calculate_pnwer truth_entities transcribed_entities
      = if truth_entities = [] then 0
        else ((((truth_entities.zip transcribed_entities).filter
              fun p => p.1 != p.2).length : ℚ)
            + ((|(truth_entities.length : ℤ) - transcribed_entities.length| : ℤ) : ℚ))
          / truth_entities.length) ∧
    (calculate_pnwer (ms.map fun m => m.truth.text) (ms.map fun m => m.transcribed.text)
      = if ms = [] then 0
        else ((ms.filter fun m => m.truth.text != m.transcribed.text).length : ℚ)
          / ms.length) := by
  constructor
  · rw [calculate_pnwer]
    by_cases h : truth_entities = []
    · simp [h]
    · rw [if_neg h, if_neg h]
      dsimp only
      congr 1
      rw [add_assoc]
      congr 1
      rw [← Int.cast_add, int_max_sub_add_max_sub]
  · rw [calculate_pnwer]
    by_cases h : ms = []
    · subst h
      simp
    · rw [if_neg (by simpa using h), if_neg h]
      have hlen : ((ms.map fun m => m.truth.text).length : ℤ)
          = ((ms.map fun m => m.transcribed.text).length : ℤ) := by
        simp
      have hsub : (((ms.map fun m => m.truth.text).zip
            (ms.map fun m => m.transcribed.text)).filter fun p => p.1 != p.2).length
          = (ms.filter fun m => m.truth.text != m.transcribed.text).length := by
        rw [List.zip_map', ← List.countP_eq_length_filter, ← List.countP_eq_length_filter,
          List.countP_map]
        rfl
      rw [hsub]
      rw [hlen, sub_self]
      simp

/-- C8: `total_entities` is the sum of the matched and both unmatched
counts; each rate is the corresponding count over `total_entities`, and 0
when `total_entities` is 0, so no division by zero arises; with an empty
reference list the match rate is 0 and `total_entities` is the candidate
count. -/
theorem generate_statistics_spec (jw : String → String → ℚ) (matched : List EMatch)
    (unmatched_truth unmatched_transcribed : List Entity)
    (P : Prims) (transcribed : List Entity) (tol : Int) :
    ((generate_statistics jw matched unmatched_truth unmatched_transcribed).total_entities
        = matched.length + unmatched_truth.length + unmatched_transcribed.length) ∧
    ((generate_statistics jw matched unmatched_truth unmatched_transcribed).match_rate
        = if 0 < matched.length + unmatched_truth.length + unmatched_transcribed.length
          then (matched.length : ℚ)
            / ((matched.length + unmatched_truth.length + unmatched_transcribed.length : ℕ) : ℚ)
          else 0) ∧
    ((generate_statistics jw matched unmatched_truth unmatched_transcribed).unmatched_truth_rate
        = if 0 < matched.length + unmatched_truth.length + unmatched_transcribed.length
          then (unmatched_truth.length : ℚ)
            / ((matched.length + unmatched_truth.length + unmatched_transcribed.length : ℕ) : ℚ)
          else 0) ∧
    ((generate_statistics jw matched unmatched_truth
        unmatched_transcribed).unmatched_transcribed_rate
        = if 0 < matched.length + unmatched_truth.length + unmatched_transcribed.length
          then (unmatched_transcribed.length : ℚ)
            / ((matched.length + unmatched_truth.length + unmatched_transcribed.length : ℕ) : ℚ)
          else 0) ∧
    (matched.length + unmatched_truth.length + unmatched_transcribed.length = 0 →
      (generate_statistics jw matched unmatched_truth unmatched_transcribed).match_rate = 0 ∧
      (generate_statistics jw matched unmatched_truth unmatched_transcribed).unmatched_truth_rate
        = 0 ∧
      (generate_statistics jw matched unmatched_truth
        unmatched_transcribed).unmatched_transcribed_rate = 0) ∧
    ((generate_statistics jw (match_entities P [] transcribed tol).matched
        (match_entities P [] transcribed tol).unmatched_truth
        (match_entities P [] transcribed tol).unmatched_transcribed).match_rate = 0 ∧
      (generate_statistics jw (match_entities P [] transcribed tol).matched
        (match_entities P [] transcribed tol).unmatched_truth
        (match_entities P [] transcribed tol).unmatched_transcribed).total_entities
        = transcribed.length) := by
  refine ⟨rfl, rfl, rfl, rfl, ?_, ?_⟩
  · intro h
    refine ⟨?_, ?_, ?_⟩ <;>
      simp only [generate_statistics] <;> rw [if_neg (by omega)]
  · rw [match_entities_empty_truth]
    constructor
    · simp only [generate_statistics]
      by_cases h : transcribed.length = 0
      · rw [if_neg (by simp [h])]
      · rw [if_pos (by simpa using Nat.pos_of_ne_zero h)]
        simp
    · simp [generate_statistics]

theorem take_drop_window {α : Type} (words : List α) (esw : ℕ) :
    (words.drop (esw - 10)).take (min words.length (esw + 10) - (esw - 10))
      = (words.take esw).drop (esw - 10) ++ (words.drop esw).take 10 := by
  by_cases h : esw ≤ words.length
  · have hsplit : min words.length (esw + 10) - (esw - 10)
        = (esw - (esw - 10)) + (min words.length (esw + 10) - esw) := by omega
    rw [hsplit, List.take_add, List.drop_drop, List.drop_take]
    have harith : esw - 10 + (esw - (esw - 10)) = esw := by omega
    rw [harith]
    congr 1
    by_cases h10 : words.length - esw ≤ 10
    · rw [List.take_of_length_le (by rw [List.length_drop]; omega),
        List.take_of_length_le (by rw [List.length_drop]; omega)]
    · congr 1
      omega
  · have hL : min words.length (esw + 10) = words.length := by omega
    rw [hL, List.take_of_length_le (by rw [List.length_drop]),
      List.take_of_length_le (le_of_not_le h),
      List.drop_eq_nil_of_le (le_of_not_le h), List.take_nil, List.append_nil]

/-- C10 (amended): the sentence window is the up-to-10 words immediately
before the mention's first word followed by the up-to-10 words counted from
the mention's first word onward — the mention's own word occupies one of
the trailing ten slots — truncated only at the transcript's ends. -/
theorem context_window_amended (text : String) (start_pos : ℕ) :
    context_window text start_pos =
      join_with_spaces
        (((split_words text).take
            ((split_words (String.mk (text.data.take start_pos))).length)).drop
            ((split_words (String.mk (text.data.take start_pos))).length - 10)
          ++ ((split_words text).drop
            ((split_words (String.mk (text.data.take start_pos))).length)).take 10) := by
  rw [context_window]
  rw [take_drop_window]

/-- C10 counterexample: with a one-word mention opening a 12-word
transcript, the produced window is the mention plus only nine following
words although a tenth follows and no transcript boundary intervenes, so it
differs from the spec-worded window of 10 words after the mention. -/
theorem context_window_counterexample :
    context_window "a b c d e f g h i j k l" 0 = "a b c d e f g h i j" ∧
    context_window_spec "a b c d e f g h i j k l" 0 1 = "a b c d e f g h i j k" ∧
    context_window "a b c d e f g h i j k l" 0
      ≠ context_window_spec "a b c d e f g h i j k l" 0 1 := by
  refine ⟨by decide, by decide, by decide⟩

/-- C9 counterexample: a response entity carrying a canonical key but an
empty type label does not lack both identifiers, yet the extraction skip
test fires on it. -/
theorem skips_entity_counterexample :
    skips_entity ⟨some "PERSON_1", none, some "Jon", none, none⟩ = true ∧
    ¬((RawEntity.mk (some "PERSON_1") none (some "Jon") none none).processed_text.getD "" = ""
      ∧ (RawEntity.mk (some "PERSON_1") none (some "Jon") none none).best_label.getD ""
        = "") := by
  refine ⟨by decide, by decide⟩

/-- C9 (amended): an entity is skipped on identification grounds exactly
when its canonical key or its type label is missing or empty — one of the
two suffices — and a skipped entity contributes nothing to the entity
mapping. -/
theorem extract_skip_condition (text : String) (dict : List (String × EntityData))
    (e : RawEntity) :
    (skips_entity e = true ↔
      (e.processed_text.getD "" = "" ∨ e.best_label.getD "" = "")) ∧
    (skips_entity e = false ∨ extract_step text dict e = dict) := by
  constructor
  · simp [skips_entity]
  · by_cases h : skips_entity e
    · exact Or.inr (by rw [extract_step, if_pos h])
    · exact Or.inl (by simpa using h)
